import Mathlib

set_option autoImplicit false

namespace Irc

/-!
Shallow embedding of the irc repository's core:
  - the line codec of `irc-proto/src/line.rs` (`LineCodec::new`, `LineCodec::decode`);
  - the protocol tracker of `src/server/mod.rs` (`IrcServer::handle_message`,
    `IrcServer::list_users`, `ServerIterator::next`).
Bytes are modelled as `Nat`, byte buffers as `List Nat`, and the stateful codec
as explicit state passing.
-/

/-- Index of the first element satisfying `p`, as Rust's `Iterator::position`
(used in line.rs line 45 and in `str::find` / `position_elem` in server/mod.rs). -/
def position {α : Type} (p : α → Bool) : List α → Option Nat
  | [] => none
  | x :: xs => if p x then some 0 else (position p xs).map (· + 1)

/-- Modelled from the spec: the character-set adapter (§2 item 8, §4.1) maps a
WHATWG label to an encoder/decoder pair; an unknown label is the only hard
error. The adapter (`encoding_from_whatwg_label`) is an external collaborator,
not part of the sources under verification; two representative encodings are
modelled. -/
inductive Encoding where
  | utf8
  | latin1
deriving DecidableEq, Repr

/-- Modelled from the spec: the label table of `encoding_from_whatwg_label`. -/
def encoding_from_whatwg_label (label : String) : Option Encoding :=
  if label = "utf-8" || label = "utf8" || label = "UTF-8" then some Encoding.utf8
  else if label = "iso-8859-1" || label = "latin1" then some Encoding.latin1
  else none

/-- Modelled from the spec: decoding under the replacement trap is total — every
unrepresentable byte falls back to the replacement character U+FFFD and the
decode never fails (§4.1).  Multi-byte UTF-8 sequences are abstracted to
per-byte decoding; no claim inspects the decoded text of non-ASCII bytes. -/
def Encoding.decodeReplace : Encoding → List Nat → String
  | Encoding.utf8, bs => String.mk (bs.map (fun b => if b < 128 then Char.ofNat b else '�'))
  | Encoding.latin1, bs => String.mk (bs.map (fun b => if b < 256 then Char.ofNat b else '�'))

/-- The error type of the codec layer (`error::ProtocolError`), reduced to the
one shape `LineCodec` produces: a wrapped I/O error with a message. -/
inductive ProtocolError where
  | io (msg : String)
deriving DecidableEq, Repr

/-- The line codec state (line.rs lines 15-19): the active encoding and the
remembered scan index `next_index`. -/
structure LineCodec where
  encoding : Encoding
  next_index : Nat
deriving DecidableEq, Repr

/-- `LineCodec::new` (line.rs lines 23-37): look the label up; an unknown label
is a hard construction-time error. -/
def LineCodec.new (label : String) : Except ProtocolError LineCodec :=
  match encoding_from_whatwg_label label with
  | some x => Except.ok { encoding := x, next_index := 0 }
  | none => Except.error (ProtocolError.io ("Attempted to use unknown codec " ++ label ++ "."))

/-- The framing step of `LineCodec::decode` (line.rs lines 45-51, 76-81):
search for `\n` (byte 10) starting at `next_index`; on a hit, split off the
frame through the newline and reset the index to 0; on a miss, remember the
scanned length and yield nothing.  Returns (new index, remaining buffer,
optional frame). -/
def lineSplit (next_index : Nat) (src : List Nat) : Nat × List Nat × Option (List Nat) :=
  match position (fun b => b == 10) (src.drop next_index) with
  | some offset =>
      (0, src.drop (next_index + offset + 1), some (src.take (next_index + offset + 1)))
  | none => (src.length, src, none)

/-- `LineCodec::decode` (line.rs lines 44-82): frame on `\n`, then decode the
frame under the codec's encoding with the replacement trap.  The source has an
error branch after the charset decode, but the replacement trap is total, so
the decode step never produces it; the `Except` mirrors the source signature. -/
def LineCodec.decode (c : LineCodec) (src : List Nat) :
    Except ProtocolError (LineCodec × List Nat × Option String) :=
  match lineSplit c.next_index src with
  | (ni, rest, some line) =>
      Except.ok ({ c with next_index := ni }, rest, some (c.encoding.decodeReplace line))
  | (ni, rest, none) => Except.ok ({ c with next_index := ni }, rest, none)

/-- A naive framing that rescans the whole buffer from index 0 on every poll;
the specification baseline for the `next_index` optimization. -/
def naiveSplit (src : List Nat) : List Nat × Option (List Nat) :=
  match position (fun b => b == 10) src with
  | some p => (src.drop (p + 1), some (src.take (p + 1)))
  | none => (src, none)

/-- One interaction with the codec: extend the buffer with newly read bytes, or
poll the decoder once. -/
inductive CodecOp where
  | feed (bs : List Nat)
  | poll
deriving DecidableEq, Repr

/-- Run a sequence of operations against the indexed splitter, collecting the
result of every poll. -/
def runSmart : Nat → List Nat → List CodecOp → List (Option (List Nat))
  | _, _, [] => []
  | ni, buf, CodecOp.feed bs :: ops => runSmart ni (buf ++ bs) ops
  | ni, buf, CodecOp.poll :: ops =>
      match lineSplit ni buf with
      | (ni', buf', out) => out :: runSmart ni' buf' ops

/-- Run the same operations against the naive splitter. -/
def runNaive : List Nat → List CodecOp → List (Option (List Nat))
  | _, [] => []
  | buf, CodecOp.feed bs :: ops => runNaive (buf ++ bs) ops
  | buf, CodecOp.poll :: ops =>
      match naiveSplit buf with
      | (buf', out) => out :: runNaive buf' ops

/-- Modelled from the spec: per-channel access levels displayed as sigils
`~ & @ % +` (§3 User); `data/user.rs` is not under src/. -/
inductive AccessLevel where
  | Owner
  | Admin
  | Oper
  | HalfOp
  | Voice
  | Member
deriving DecidableEq, Repr

/-- Precedence of an access level, high to low (§3 User). -/
def AccessLevel.prec : AccessLevel → Nat
  | AccessLevel.Owner => 5
  | AccessLevel.Admin => 4
  | AccessLevel.Oper => 3
  | AccessLevel.HalfOp => 2
  | AccessLevel.Voice => 1
  | AccessLevel.Member => 0

/-- The role directly below a given one (§3 User: `-` drops to the role below
the removed one). -/
def AccessLevel.below : AccessLevel → AccessLevel
  | AccessLevel.Owner => AccessLevel.Admin
  | AccessLevel.Admin => AccessLevel.Oper
  | AccessLevel.Oper => AccessLevel.HalfOp
  | AccessLevel.HalfOp => AccessLevel.Voice
  | _ => AccessLevel.Member

/-- Modelled from the spec: a User is a bare nickname carrying its current
highest access level (§3 User); `data/user.rs` is not under src/. -/
structure User where
  nickname : String
  access : AccessLevel
deriving DecidableEq, Repr

/-- Modelled from the spec: `User::new` parses a leading access sigil off the
nickname (§3 User; the spec's open questions note the source handles a single
leading sigil, not multi-prefix). -/
def User.new (s : String) : User :=
  match s.data with
  | '~' :: rest => { nickname := String.mk rest, access := AccessLevel.Owner }
  | '&' :: rest => { nickname := String.mk rest, access := AccessLevel.Admin }
  | '@' :: rest => { nickname := String.mk rest, access := AccessLevel.Oper }
  | '%' :: rest => { nickname := String.mk rest, access := AccessLevel.HalfOp }
  | '+' :: rest => { nickname := String.mk rest, access := AccessLevel.Voice }
  | _ => { nickname := s, access := AccessLevel.Member }

/-- Modelled from the spec: equality of users is by bare nickname, sigils
stripped (§3 User); this is the `PartialEq` used by `position_elem`. -/
def User.eqUser (a b : User) : Bool := a.nickname == b.nickname

/-- Modelled from the spec: the mode-letter to access-sigil table of §4.6
(`o→@, v→+, h→%, a→&, q→~`). -/
def modeLevel : Char → Option AccessLevel
  | 'q' => some AccessLevel.Owner
  | 'a' => some AccessLevel.Admin
  | 'o' => some AccessLevel.Oper
  | 'h' => some AccessLevel.HalfOp
  | 'v' => some AccessLevel.Voice
  | _ => none

/-- Modelled from the spec: `update_access(mode_string)` interprets `+x` / `-x`
(§3 User): `+` raises to the new role if it has higher precedence than the
current one; `-` drops to the role below the removed one. -/
def User.update_access_level (u : User) (mode : String) : User :=
  match mode.data with
  | '+' :: l :: _ =>
      match modeLevel l with
      | some lv => if u.access.prec < lv.prec then { u with access := lv } else u
      | none => u
  | '-' :: l :: _ =>
      match modeLevel l with
      | some lv => if u.access = lv then { u with access := lv.below } else u
      | none => u
  | _ => u

/-- Modelled from the spec: a parsed IRC message (§3 Message) as used by the
tracker in server/mod.rs: optional prefix (`pfx`), command, middle arguments,
optional trailing argument (`suffix`); `data/message.rs` is not under src/.
Message tags are out of scope for the claims (the tracker predates them). -/
structure Message where
  pfx : Option String
  command : String
  args : List String
  suffix : Option String
deriving DecidableEq, Repr

/-- Modelled from the spec: the configuration fields the tracker reads — the
ordered auto-join channel list (§3 Configuration); `data/config.rs` is not
under src/. -/
structure Config where
  channels : List String
deriving DecidableEq, Repr

/-- The configuration of the repository's own tests (server/mod.rs
`test_config`): `channels = ["#test", "#test2"]`. -/
def test_config : Config := { channels := ["#test", "#test2"] }

/-- Modelled from the spec: command serialization for the two commands the
tracker sends (`data/command.rs` is not under src/): `PONG` carries its
argument as the trailing argument, `JOIN` carries the channel as a middle
argument — matching the expected outbound lines `PONG :x` and `JOIN #chan`
of §8 scenario 1. -/
def PONG (s : String) : Message :=
  { pfx := none, command := "PONG", args := [], suffix := some s }

/-- Modelled from the spec: `JOIN` serialization, see `PONG`. -/
def JOIN (c : String) : Message :=
  { pfx := none, command := "JOIN", args := [c], suffix := none }

/-- Modelled from the spec: `Message::into_string` — `[:prefix ]command[ arg]*
[ :suffix]\r\n` (§3 Message, §4.2: every serialized message ends in CRLF). -/
def Message.into_string (m : Message) : String :=
  (match m.pfx with
   | some p => ":" ++ p ++ " "
   | none => "")
  ++ m.command
  ++ String.join (m.args.map (fun a => " " ++ a))
  ++ (match m.suffix with
      | some s => " :" ++ s
      | none => "")
  ++ "\r\n"

/-- The channel-roster map (`chanlists: HashMap<String, Vec<User>>` of
server/mod.rs line 36), modelled as an association list with unique keys. -/
abbrev Chanlists := List (String × List User)

/-- Lookup of a key, as `HashMap::get_mut` / `find_copy`. -/
def Chanlists.find? : Chanlists → String → Option (List User)
  | [], _ => none
  | (k', v) :: rest, k => if k' = k then some v else Chanlists.find? rest k

/-- In-place update of an existing key's value (the write-back of a
`get_mut` mutation). -/
def Chanlists.set : Chanlists → String → List User → Chanlists
  | [], _, _ => []
  | (k', v') :: rest, k, v =>
      if k' = k then (k', v) :: rest else (k', v') :: Chanlists.set rest k v

/-- `HashMap::insert`: replace the value of an existing key, otherwise add the
entry. -/
def Chanlists.insert (cl : Chanlists) (k : String) (v : List User) : Chanlists :=
  if (Chanlists.find? cl k).isSome then Chanlists.set cl k v else cl ++ [(k, v)]

/-- `IrcServer::list_users` (server/mod.rs lines 77-79): a snapshot copy of the
roster via `find_copy`; `None` when the channel is unknown. -/
def list_users (cl : Chanlists) (chan : String) : Option (List User) :=
  Chanlists.find? cl chan

/-- `Vec::swap_remove(n)`: move the last element into slot `n` and pop the
last element (server/mod.rs line 129; `n` is always in bounds there). -/
def swapRemove (l : List User) (n : Nat) : List User :=
  match l.getLast? with
  | none => l
  | some x => (l.set n x).dropLast

/-- `position_elem` (server/mod.rs lines 128, 137): index of the first roster
entry equal — by bare nickname — to the given user. -/
def position_elem (l : List User) (u : User) : Option Nat :=
  position (fun v => User.eqUser v u) l

/-- Rust `str::split_str(sep)` semantics on a single-character separator:
split at every occurrence, keeping empty pieces. -/
def splitChars (sep : Char) : List Char → List (List Char)
  | [] => [[]]
  | c :: rest =>
      if c = sep then [] :: splitChars sep rest
      else
        match splitChars sep rest with
        | g :: gs => (c :: g) :: gs
        | [] => [[c]]

/-- `users.split_str(" ")` of server/mod.rs line 107, as strings. -/
def splitStr (s : String) (sep : Char) : List String :=
  (splitChars sep s.data).map String.mk

/-- The body of the 353 branch (server/mod.rs lines 108-113): push the user
onto the channel's roster, creating the entry if the channel is absent. -/
def pushOrInsert (cl : Chanlists) (chan : String) (u : User) : Chanlists :=
  match Chanlists.find? cl chan with
  | some vec => Chanlists.set cl chan (vec ++ [u])
  | none => Chanlists.insert cl chan [u]

/-- The 353 loop (server/mod.rs lines 107-114): one `pushOrInsert` per
whitespace-separated user, in order. -/
def handle353 (cl : Chanlists) (chan : String) (users : List String) : Chanlists :=
  users.foldl (fun cl u => pushOrInsert cl chan (User.new u)) cl

/-- The channel selected by the JOIN/PART branch (server/mod.rs lines
118-121): the trailing argument if present, otherwise `args[0]` — `none` here
models the index panic when both are missing. -/
def chanOf (m : Message) : Option String :=
  match m.suffix with
  | some s => some s
  | none => m.args.get? 0

/-- `IrcServer::handle_message` (server/mod.rs lines 96-142).  The result is
the new roster map paired with the messages sent on the connection; `none`
models a panic (the `unwrap()` on a PING without trailing argument at line 98,
or the `args[0]` index at line 120). -/
def handle_message (cfg : Config) (cl : Chanlists) (m : Message) :
    Option (Chanlists × List Message) :=
  if m.command = "PING" then
    match m.suffix with
    | some s => some (cl, [PONG s])
    | none => none
  else if m.command = "376" ∨ m.command = "422" then
    some (cl, cfg.channels.map (fun c => JOIN c))
  else if m.command = "353" then
    match m.suffix with
    | some users =>
        match m.args with
        | [_, _, chan] => some (handle353 cl chan (splitStr users ' '), [])
        | _ => some (cl, [])
    | none => some (cl, [])
  else if m.command = "JOIN" ∨ m.command = "PART" then
    match chanOf m with
    | none => none
    | some chan =>
        match Chanlists.find? cl chan with
        | none => some (cl, [])
        | some vec =>
            match m.pfx with
            | none => some (cl, [])
            | some source =>
                match position (fun c => c == '!') source.data with
                | none => some (cl, [])
                | some i =>
                    let sender := User.new (String.mk (source.data.take i))
                    if m.command = "JOIN" then
                      some (Chanlists.set cl chan (vec ++ [sender]), [])
                    else
                      match position_elem vec sender with
                      | some n => some (Chanlists.set cl chan (swapRemove vec n), [])
                      | none => some (cl, [])
  else if m.command = "MODE" then
    match m.args with
    | [chan, mode, user] =>
        match Chanlists.find? cl chan with
        | none => some (cl, [])
        | some vec =>
            match position_elem vec (User.new user) with
            | some n =>
                match vec.get? n with
                | some u =>
                    some (Chanlists.set cl chan (vec.set n (u.update_access_level mode)), [])
                | none => some (cl, [])
            | none => some (cl, [])
    | _ => some (cl, [])
  else some (cl, [])

/-- Drop one trailing `\r\n` or `\n` (§4.2: the IRC codec trims one line
ending before parsing). -/
def stripLineEnd (cs : List Char) : List Char :=
  match cs.reverse with
  | '\n' :: '\r' :: rest => rest.reverse
  | '\n' :: rest => rest.reverse
  | _ => cs

/-- Split at the first top-level ` :`, separating middle arguments from the
trailing argument (§3 Message). -/
def splitSuffix : List Char → List Char × Option (List Char)
  | [] => ([], none)
  | ' ' :: ':' :: rest => ([], some rest)
  | c :: rest =>
      match splitSuffix rest with
      | (m, s) => (c :: m, s)

/-- Modelled from the spec: `Message` parsing (`data/message.rs` `from_str` is
not under src/): trim one trailing line ending, take an optional `:`-prefix up
to the first space, split off the trailing argument at the first ` :`, read
the command and middle arguments as space-separated tokens; a line with an
empty command fails to parse (§3 Message, §4.2). -/
def parseMessage (line : String) : Option Message :=
  let cs := stripLineEnd line.data
  let (pfx, rest) :=
    match cs with
    | ':' :: t =>
        match splitChars ' ' t with
        | p :: restToks => (some (String.mk p), (String.intercalate " " (restToks.map String.mk)).data)
        | [] => (some "", ([] : List Char))
    | _ => (none, cs)
  match splitSuffix rest with
  | (middle, suffix) =>
      match (splitChars ' ' middle).filter (fun t => t ≠ []) with
      | [] => none
      | cmd :: args =>
          some { pfx := pfx, command := String.mk cmd, args := args.map String.mk,
                 suffix := suffix.map String.mk }

/-- One step of `ServerIterator::next` on a received line (server/mod.rs lines
162-171): parse the line, let the tracker handle it, surface the parsed
message.  `none` models the panic of the `unwrap()` at line 168 when the line
does not parse (and the panics inside `handle_message`). -/
def processLine (cfg : Config) (cl : Chanlists) (line : String) :
    Option (Chanlists × Message × List Message) :=
  match parseMessage line with
  | none => none
  | some m =>
      match handle_message cfg cl m with
      | none => none
      | some (cl', out) => some (cl', m, out)

/-- Drive `ServerIterator::next` over a list of received lines, collecting the
surfaced messages and everything sent on the connection. -/
def runLines (cfg : Config) : Chanlists → List String → Option (Chanlists × List Message × List Message)
  | cl, [] => some (cl, [], [])
  | cl, line :: rest =>
      match processLine cfg cl line with
      | none => none
      | some (cl', m, out) =>
          match runLines cfg cl' rest with
          | none => none
          | some (cl'', surfaced, outs) => some (cl'', m :: surfaced, out ++ outs)

/-- Repeatedly frame a byte buffer with `lineSplit`, fuelled by the buffer
length (each successful split consumes at least one byte). -/
def frameAllGo : Nat → Nat → List Nat → List (List Nat)
  | 0, _, _ => []
  | fuel + 1, ni, src =>
      match lineSplit ni src with
      | (_, _, none) => []
      | (ni', rest, some line) => line :: frameAllGo fuel ni' rest

/-- All complete frames of a byte buffer. -/
def frameAll (src : List Nat) : List (List Nat) :=
  frameAllGo (src.length + 1) 0 src

/-- End-to-end pipeline for the mock scenario: frame the inbound bytes, decode
each frame as UTF-8, run the server loop, and concatenate the serialized
outbound messages. -/
def runBytes (cfg : Config) (input : String) : String :=
  let lines := (frameAll (input.data.map Char.toNat)).map Encoding.utf8.decodeReplace
  match runLines cfg [] lines with
  | some (_, _, outs) => String.join (outs.map Message.into_string)
  | none => ""

/-- Inbound bytes of §8 scenario 1 and of the repository's `handle_message`
test. -/
def c1_input : String := "PING :irc.test.net\r\n:irc.test.net 376 test :End of /MOTD.\r\n"

/-- A four-user RPL_NAMREPLY used to exercise roster removal. -/
def c2_m353 : Message :=
  { pfx := some "irc.test.net", command := "353", args := ["test", "=", "#chan"],
    suffix := some "anna bob carl dave" }

/-- A PART by the second of the four users. -/
def c2_mpart : Message :=
  { pfx := some "bob!u@h", command := "PART", args := ["#chan"], suffix := none }

/-- The roster built by `c2_m353`. -/
def c2_vec : List User :=
  [User.new "anna", User.new "bob", User.new "carl", User.new "dave"]

/-- A one-user RPL_NAMREPLY, used twice to exercise de-duplication. -/
def c3_m353 : Message :=
  { pfx := some "irc.test.net", command := "353", args := ["test", "=", "#c"],
    suffix := some "anna" }

/-- A PART by the single listed user. -/
def c3_mpart : Message :=
  { pfx := some "anna!u@h", command := "PART", args := ["#c"], suffix := none }

/-- A KICK of the single listed user: the tracker has no KICK branch. -/
def c3_mkick : Message :=
  { pfx := some "op!u@h", command := "KICK", args := ["#c", "anna"], suffix := none }

/-! Helper lemmas. -/

theorem position_shift (p : Nat → Bool) :
    ∀ (n : Nat) (l : List Nat), n ≤ l.length → (∀ b ∈ l.take n, p b = false) →
      position p l = (position p (l.drop n)).map (· + n)
  | 0, l, _, _ => by
      simp
  | n + 1, [], h, _ => by
      simp at h
  | n + 1, x :: xs, h, hf => by
      have hx : p x = false := hf x (by simp)
      have ih := position_shift p n xs (by simpa using h)
        (fun b hb => hf b (by simp [hb]))
      simp [position, hx, ih, Option.map_map]

theorem position_none_iff (p : Nat → Bool) (l : List Nat) :
    position p l = none ↔ ∀ b ∈ l, p b = false := by
  induction l with
  | nil => simp [position]
  | cons x xs ih =>
      by_cases hx : p x = true
      · simp [position, hx]
      · simp at hx
        simp [position, hx, ih]

theorem position_lt {α : Type} (p : α → Bool) :
    ∀ (l : List α) (n : Nat), position p l = some n → n < l.length
  | [], n, h => by simp [position] at h
  | x :: xs, n, h => by
      by_cases hx : p x = true
      · simp [position, hx] at h
        subst h
        simp
      · simp at hx
        simp [position, hx] at h
        obtain ⟨m, hm, rfl⟩ := h
        have := position_lt p xs m hm
        simpa using Nat.succ_lt_succ this

theorem position_true_at {α : Type} (p : α → Bool) :
    ∀ (l : List α) (n : Nat), position p l = some n →
      ∃ h : n < l.length, p (l.get ⟨n, h⟩) = true
  | [], n, h => by simp [position] at h
  | x :: xs, n, h => by
      by_cases hx : p x = true
      · simp [position, hx] at h
        subst h
        exact ⟨by simp, hx⟩
      · simp at hx
        simp [position, hx] at h
        obtain ⟨m, hm, rfl⟩ := h
        obtain ⟨hlt, hp⟩ := position_true_at p xs m hm
        exact ⟨by simpa using Nat.succ_lt_succ hlt, hp⟩

theorem countP_eraseIdx_position (p : User → Bool) :
    ∀ (l : List User) (n : Nat), position p l = some n →
      l.countP p = (l.eraseIdx n).countP p + 1
  | [], n, h => by simp [position] at h
  | x :: xs, n, h => by
      by_cases hx : p x = true
      · simp [position, hx] at h
        subst h
        simp [List.countP_cons, hx]
      · simp at hx
        simp [position, hx] at h
        obtain ⟨m, hm, rfl⟩ := h
        have ih := countP_eraseIdx_position p xs m hm
        simp [List.countP_cons, hx, ih]

theorem set_perm_cons_eraseIdx {α : Type} :
    ∀ (ys : List α) (n : Nat) (x : α), n < ys.length →
      List.Perm (ys.set n x) (x :: ys.eraseIdx n)
  | [], n, x, h => by simp at h
  | y :: t, 0, x, _ => by simp
  | y :: t, n + 1, x, h => by
      have ih := set_perm_cons_eraseIdx t n x (by simpa using h)
      have h1 : (y :: t).set (n + 1) x = y :: t.set n x := by simp
      have h2 : (y :: t).eraseIdx (n + 1) = y :: t.eraseIdx n := by simp
      rw [h1, h2]
      exact (ih.cons y).trans (List.Perm.swap x y _)

theorem swapRemove_perm_eraseIdx (l : List User) (n : Nat) (h : n < l.length) :
    List.Perm (swapRemove l n) (l.eraseIdx n) := by
  rcases List.eq_nil_or_concat l with rfl | ⟨ys, x, rfl⟩
  · simp at h
  · rw [List.concat_eq_append] at h ⊢
    simp only [swapRemove, List.getLast?_concat]
    rcases Nat.lt_or_ge n ys.length with hn | hn
    · rw [List.set_append_left _ _ hn, List.dropLast_concat,
        List.eraseIdx_append_of_lt_length hn]
      exact (set_perm_cons_eraseIdx ys n x hn).trans (List.perm_append_singleton x _).symm
    · have hlen : n = ys.length := by
        simp at h
        omega
      subst hlen
      rw [List.set_append_right _ _ hn, List.eraseIdx_append_of_length_le hn]
      simp

theorem find?_set_self :
    ∀ (cl : Chanlists) (k : String) (v w : List User),
      Chanlists.find? cl k = some v → Chanlists.find? (Chanlists.set cl k w) k = some w
  | [], _, _, _, h => by simp [Chanlists.find?] at h
  | (k', v') :: rest, k, v, w, h => by
      by_cases hk : k' = k
      · simp [Chanlists.find?, Chanlists.set, hk]
      · simp [Chanlists.find?, Chanlists.set, hk] at h ⊢
        exact find?_set_self rest k v w h

theorem find?_append_self :
    ∀ (cl : Chanlists) (k : String) (w : List User),
      Chanlists.find? cl k = none → Chanlists.find? (cl ++ [(k, w)]) k = some w
  | [], k, w, _ => by simp [Chanlists.find?]
  | (k', v') :: rest, k, w, h => by
      by_cases hk : k' = k
      · simp [Chanlists.find?, hk] at h
      · simp [Chanlists.find?, hk] at h ⊢
        exact find?_append_self rest k w h

theorem find?_pushOrInsert_self (cl : Chanlists) (chan : String) (u : User) :
    ∃ v, Chanlists.find? (pushOrInsert cl chan u) chan = some v ∧ u ∈ v := by
  unfold pushOrInsert
  cases hf : Chanlists.find? cl chan with
  | some vec =>
      exact ⟨vec ++ [u], find?_set_self cl chan vec (vec ++ [u]) hf, by simp⟩
  | none =>
      refine ⟨[u], ?_, by simp⟩
      rw [Chanlists.insert, hf]
      simpa using find?_append_self cl chan [u] hf

theorem find?_pushOrInsert_mem (cl : Chanlists) (chan : String) (u w : User) (v : List User)
    (hv : Chanlists.find? cl chan = some v) (hw : w ∈ v) :
    ∃ v', Chanlists.find? (pushOrInsert cl chan u) chan = some v' ∧ w ∈ v' := by
  unfold pushOrInsert
  rw [hv]
  exact ⟨v ++ [u], find?_set_self cl chan v (v ++ [u]) hv, by simp [hw]⟩

theorem handle353_mem_mono :
    ∀ (users : List String) (cl : Chanlists) (chan : String) (w : User) (v : List User),
      Chanlists.find? cl chan = some v → w ∈ v →
      ∃ v', Chanlists.find? (handle353 cl chan users) chan = some v' ∧ w ∈ v'
  | [], cl, chan, w, v, hv, hw => ⟨v, hv, hw⟩
  | u :: rest, cl, chan, w, v, hv, hw => by
      obtain ⟨v', hv', hw'⟩ := find?_pushOrInsert_mem cl chan (User.new u) w v hv hw
      exact handle353_mem_mono rest (pushOrInsert cl chan (User.new u)) chan w v' hv' hw'

theorem handle353_mem :
    ∀ (users : List String) (cl : Chanlists) (chan : String) (nick : String),
      nick ∈ users →
      ∃ v, Chanlists.find? (handle353 cl chan users) chan = some v ∧ User.new nick ∈ v
  | [], _, _, _, h => by simp at h
  | u :: rest, cl, chan, nick, h => by
      rcases List.mem_cons.mp h with rfl | h
      · obtain ⟨v, hv, hmem⟩ := find?_pushOrInsert_self cl chan (User.new nick)
        exact handle353_mem_mono rest _ chan (User.new nick) v hv hmem
      · exact handle353_mem rest (pushOrInsert cl chan (User.new u)) chan nick h

/-! Claim theorems. -/

/-- C1: for a client configured with channels `["#test", "#test2"]`, processing
the inbound bytes `"PING :irc.test.net\r\n:irc.test.net 376 test :End of
/MOTD.\r\n"` produces an outbound byte sequence containing
`"PONG :irc.test.net\r\n"`, then `"JOIN #test\r\n"`, then `"JOIN #test2\r\n"`,
in that order. -/
theorem c1_ping_then_motd_autojoin :
    ∃ a b c d : String,
      runBytes test_config c1_input =
        a ++ "PONG :irc.test.net\r\n" ++ b ++ "JOIN #test\r\n" ++ c ++ "JOIN #test2\r\n" ++ d :=
  ⟨"", "", "", "", by decide⟩

/-- C2 counterexample: from the roster built by a 353 naming
`anna bob carl dave`, a PART by `bob` leaves `list_users` as
`[anna, dave, carl]` — the source removes with `Vec::swap_remove` (line 129),
which moves the last user into the vacated slot, so the survivors `carl` and
`dave` are not in the relative order they had before the removal (the
surviving-nick sequence is not a sublist of the original sequence). -/
theorem c2_swap_remove_counterexample :
    handle_message test_config [] c2_m353 =
      some ([("#chan", [User.new "anna", User.new "bob", User.new "carl", User.new "dave"])], []) ∧
    handle_message test_config
        [("#chan", [User.new "anna", User.new "bob", User.new "carl", User.new "dave"])] c2_mpart =
      some ([("#chan", [User.new "anna", User.new "dave", User.new "carl"])], []) ∧
    (list_users [("#chan", [User.new "anna", User.new "dave", User.new "carl"])] "#chan").map
        (List.map User.nickname) = some ["anna", "dave", "carl"] ∧
    ¬ List.Sublist ["anna", "dave", "carl"] ["anna", "bob", "carl", "dave"] := by
  refine ⟨by decide, by decide, by decide, by decide⟩

/-- C3 counterexample: the 353 branch pushes every listed user unconditionally
(server/mod.rs line 109), so after two 353s both naming `anna`, the roster of
`#c` contains the bare nick `anna` twice, not exactly once. -/
theorem c3_no_dedup_counterexample :
    handle_message test_config [] c3_m353 = some ([("#c", [User.new "anna"])], []) ∧
    handle_message test_config [("#c", [User.new "anna"])] c3_m353 =
      some ([("#c", [User.new "anna", User.new "anna"])], []) ∧
    ((list_users [("#c", [User.new "anna", User.new "anna"])] "#c").map
        (fun v => v.countP (fun u => u.nickname == "anna"))) = some 2 := by
  refine ⟨by decide, by decide, by decide⟩

/-- C4: the claim says an unparseable inbound line is logged, skipped, and
never fatal; but `ServerIterator::next` (server/mod.rs line 168) calls
`unwrap()` on the parse result, so a line that fails to parse panics the
client.  At the concrete line `":irc.test.net\r\n"` (a prefix with no
command), parsing fails, the processing step panics (modelled as `none`), and
a run containing the bad line followed by a parseable `PING` dies instead of
continuing. -/
theorem c4_parse_failure_is_fatal :
    parseMessage ":irc.test.net\r\n" = none ∧
    processLine test_config [] ":irc.test.net\r\n" = none ∧
    runLines test_config [] [":irc.test.net\r\n", "PING :x\r\n"] = none := by
  refine ⟨by decide, by decide, by decide⟩

/-- C2 amended: insertion order is preserved by the appends of the 353 and
JOIN branches, but a removal (PART, server/mod.rs line 129) uses
`Vec::swap_remove`: the tracked roster becomes `swapRemove vec n`, in which
the last user has been moved into the removed user's slot — a permutation of
the order-preserving removal `vec.eraseIdx n`, not the order-preserving
removal itself. -/
theorem c2_part_uses_swap_remove (cfg : Config) (cl : Chanlists) (m : Message)
    (chan : String) (vec : List User) (source : String) (i n : Nat)
    (hc : m.command = "PART") (hchan : chanOf m = some chan)
    (hfind : Chanlists.find? cl chan = some vec)
    (hpfx : m.pfx = some source)
    (hbang : position (fun c => c == '!') source.data = some i)
    (hpos : position_elem vec (User.new (String.mk (source.data.take i))) = some n) :
    handle_message cfg cl m = some (Chanlists.set cl chan (swapRemove vec n), []) ∧
    List.Perm (swapRemove vec n) (vec.eraseIdx n) := by
  constructor
  · obtain ⟨pfx, cmd, args, sfx⟩ := m
    dsimp only at hc hchan hpfx
    subst hc hpfx
    simp only [handle_message, if_neg (by decide : ¬("PART" = "PING")),
      if_neg (by decide : ¬("PART" = "376" ∨ "PART" = "422")),
      if_neg (by decide : ¬("PART" = "353")),
      if_pos (Or.inr rfl : "PART" = "JOIN" ∨ "PART" = "PART"),
      hchan, hfind, hbang, hpos, if_neg (by decide : ¬("PART" = "JOIN"))]
    simp
  · exact swapRemove_perm_eraseIdx vec n (position_lt _ vec n hpos)

/-- Witness for `c2_part_uses_swap_remove` at the four-user roster: `bob` at
index 1 is removed by moving `dave` into slot 1. -/
theorem c2_part_uses_swap_remove_witness :
    handle_message test_config [("#chan", c2_vec)] c2_mpart =
      some (Chanlists.set [("#chan", c2_vec)] "#chan" (swapRemove c2_vec 1), []) ∧
    List.Perm (swapRemove c2_vec 1) (c2_vec.eraseIdx 1) :=
  c2_part_uses_swap_remove test_config [("#chan", c2_vec)] c2_mpart "#chan" c2_vec
    "bob!u@h" 3 1 (by decide) (by decide) (by decide) (by decide) (by decide) (by decide)

/-- C3 amended: after a 353 or JOIN naming a user, `list_users(chan)` contains
the user's bare nick AT LEAST once — the 353 and JOIN branches append
unconditionally (server/mod.rs lines 109, 126), so an already-present nick is
duplicated rather than de-duplicated.  After a PART by a sender whose bare
nick occurs exactly once, the nick no longer occurs.  KICK and QUIT have no
branch in `handle_message` and leave every roster unchanged. -/
theorem c3_append_part_kick_quit (cfg : Config) (cl : Chanlists) (m : Message)
    (chan users nick : String) (vec : List User) (source : String) (i n : Nat) :
    (m.command = "353" → m.suffix = some users → (∃ a b, m.args = [a, b, chan]) →
      nick ∈ splitStr users ' ' →
      ∃ cl' v, handle_message cfg cl m = some (cl', []) ∧
        list_users cl' chan = some v ∧ User.new nick ∈ v) ∧
    (m.command = "JOIN" → chanOf m = some chan →
      Chanlists.find? cl chan = some vec →
      m.pfx = some source → position (fun c => c == '!') source.data = some i →
      handle_message cfg cl m =
        some (Chanlists.set cl chan (vec ++ [User.new (String.mk (source.data.take i))]), []) ∧
      list_users (Chanlists.set cl chan (vec ++ [User.new (String.mk (source.data.take i))])) chan =
        some (vec ++ [User.new (String.mk (source.data.take i))])) ∧
    (m.command = "PART" → chanOf m = some chan →
      Chanlists.find? cl chan = some vec →
      m.pfx = some source → position (fun c => c == '!') source.data = some i →
      position_elem vec (User.new (String.mk (source.data.take i))) = some n →
      vec.countP (fun v => User.eqUser v (User.new (String.mk (source.data.take i)))) = 1 →
      handle_message cfg cl m = some (Chanlists.set cl chan (swapRemove vec n), []) ∧
      list_users (Chanlists.set cl chan (swapRemove vec n)) chan = some (swapRemove vec n) ∧
      ∀ u ∈ swapRemove vec n, u.nickname ≠ (User.new (String.mk (source.data.take i))).nickname) ∧
    ((m.command = "KICK" ∨ m.command = "QUIT") → handle_message cfg cl m = some (cl, [])) := by
  refine ⟨?_, ?_, ?_, ?_⟩
  · intro hc hsfx hargs hnick
    obtain ⟨a, b, hargs⟩ := hargs
    obtain ⟨pfx, cmd, args, sfx⟩ := m
    dsimp only at hc hsfx hargs
    subst hc hsfx hargs
    obtain ⟨v, hv, hmem⟩ := handle353_mem (splitStr users ' ') cl chan nick hnick
    refine ⟨handle353 cl chan (splitStr users ' '), v, ?_, hv, hmem⟩
    simp [handle_message]
  · intro hc hchan hfind hpfx hbang
    obtain ⟨pfx, cmd, args, sfx⟩ := m
    dsimp only at hc hchan hpfx
    subst hc hpfx
    constructor
    · simp only [handle_message, if_neg (by decide : ¬("JOIN" = "PING")),
        if_neg (by decide : ¬("JOIN" = "376" ∨ "JOIN" = "422")),
        if_neg (by decide : ¬("JOIN" = "353")),
        hchan, hfind, hbang]
      simp
    · exact find?_set_self cl chan vec _ hfind
  · intro hc hchan hfind hpfx hbang hpos hcount
    obtain ⟨pfx, cmd, args, sfx⟩ := m
    dsimp only at hc hchan hpfx
    subst hc hpfx
    have hlt := position_lt _ vec n hpos
    have hperm := swapRemove_perm_eraseIdx vec n hlt
    have herase := countP_eraseIdx_position _ vec n hpos
    refine ⟨?_, find?_set_self cl chan vec _ hfind, ?_⟩
    · simp only [handle_message, if_neg (by decide : ¬("PART" = "PING")),
        if_neg (by decide : ¬("PART" = "376" ∨ "PART" = "422")),
        if_neg (by decide : ¬("PART" = "353")),
        if_pos (Or.inr rfl : "PART" = "JOIN" ∨ "PART" = "PART"),
        hchan, hfind, hbang, hpos, if_neg (by decide : ¬("PART" = "JOIN"))]
      simp
    · have hzero :
          (swapRemove vec n).countP
            (fun v => User.eqUser v (User.new (String.mk (source.data.take i)))) = 0 := by
        rw [hperm.countP_eq]
        omega
      intro u hu
      have := (List.countP_eq_zero.mp hzero) u hu
      simpa [User.eqUser] using this
  · intro hc
    obtain ⟨pfx, cmd, args, sfx⟩ := m
    rcases hc with hc | hc <;> dsimp only at hc <;> subst hc <;> simp [handle_message]

/-- Witness for `c3_append_part_kick_quit`: the 353, JOIN, PART and KICK
conjuncts applied at concrete inputs around the one-user roster of `#c`. -/
theorem c3_append_part_kick_quit_witness :
    (∃ cl' v, handle_message test_config [] c3_m353 = some (cl', []) ∧
      list_users cl' "#c" = some v ∧ User.new "anna" ∈ v) ∧
    (handle_message test_config [("#c", [User.new "anna"])] c3_mpart =
      some (Chanlists.set [("#c", [User.new "anna"])] "#c" (swapRemove [User.new "anna"] 0), []) ∧
      list_users (Chanlists.set [("#c", [User.new "anna"])] "#c" (swapRemove [User.new "anna"] 0)) "#c" =
        some (swapRemove [User.new "anna"] 0) ∧
      ∀ u ∈ swapRemove [User.new "anna"] 0,
        u.nickname ≠ (User.new (String.mk ("anna!u@h".data.take 4))).nickname) ∧
    handle_message test_config [("#c", [User.new "anna"])] c3_mkick =
      some ([("#c", [User.new "anna"])], []) :=
  ⟨(c3_append_part_kick_quit test_config [] c3_m353 "#c" "anna" "anna" [] "" 0 0).1
      (by decide) (by decide) ⟨"test", "=", by decide⟩ (by decide),
   (c3_append_part_kick_quit test_config [("#c", [User.new "anna"])] c3_mpart "#c" "" "anna"
      [User.new "anna"] "anna!u@h" 4 0).2.2.1
      (by decide) (by decide) (by decide) (by decide) (by decide) (by decide) (by decide),
   (c3_append_part_kick_quit test_config [("#c", [User.new "anna"])] c3_mkick "#c" "" ""
      [] "" 0 0).2.2.2 (Or.inl (by decide))⟩

/-- C5: `LineCodec::decode` on any byte buffer never returns an error — the
charset decode runs under the replacement trap, which replaces unrepresentable
bytes rather than failing; the only hard error of the codec is
`LineCodec::new` on a label unknown to `encoding_from_whatwg_label`, at
construction time. -/
theorem c5_decode_total_new_fails_on_unknown_label (label : String) (src : List Nat) :
    (∀ c, LineCodec.new label = Except.ok c →
      ∃ st rest out, LineCodec.decode c src = Except.ok (st, rest, out)) ∧
    (encoding_from_whatwg_label label = none →
      ∃ msg, LineCodec.new label = Except.error (ProtocolError.io msg)) := by
  constructor
  · intro c _
    rw [LineCodec.decode]
    cases h : lineSplit c.next_index src with
    | mk ni rest' =>
        cases rest' with
        | mk rest out =>
            cases out with
            | some line => exact ⟨_, _, _, rfl⟩
            | none => exact ⟨_, _, _, rfl⟩
  · intro h
    rw [LineCodec.new, h]
    exact ⟨_, rfl⟩

/-- Witness for `c5_decode_total_new_fails_on_unknown_label`: the codec built
from `"utf-8"` decodes a concrete buffer without error, and construction from
an unknown label errors. -/
theorem c5_witness :
    (∃ st rest out,
      LineCodec.decode { encoding := Encoding.utf8, next_index := 0 } [72, 10, 200] =
        Except.ok (st, rest, out)) ∧
    (∃ msg, LineCodec.new "no-such-charset" = Except.error (ProtocolError.io msg)) :=
  ⟨(c5_decode_total_new_fails_on_unknown_label "utf-8" [72, 10, 200]).1
      { encoding := Encoding.utf8, next_index := 0 } rfl,
   (c5_decode_total_new_fails_on_unknown_label "no-such-charset" []).2 rfl⟩

/-- C6: for a reachable codec state (the remembered `next_index` never points
past a newline or past the end of the buffer), `LineCodec::decode` either
returns the line ending at — and including — the FIRST `\n` of the buffer,
advancing the buffer exactly past that newline, or returns no line when the
buffer holds no `\n`; it never splits at any byte other than `\n`. -/
theorem c6_decode_splits_at_first_newline (c : LineCodec) (src : List Nat)
    (hle : c.next_index ≤ src.length)
    (hscan : ∀ b ∈ src.take c.next_index, (b == 10) = false) :
    (∀ p, position (fun b => b == 10) src = some p →
      LineCodec.decode c src =
        Except.ok ({ c with next_index := 0 }, src.drop (p + 1),
          some (c.encoding.decodeReplace (src.take (p + 1))))) ∧
    (position (fun b => b == 10) src = none →
      LineCodec.decode c src = Except.ok ({ c with next_index := src.length }, src, none)) := by
  have hshift := position_shift (fun b => b == 10) c.next_index src hle hscan
  constructor
  · intro p hp
    rw [hp] at hshift
    cases hq : position (fun b => b == 10) (src.drop c.next_index) with
    | none => rw [hq] at hshift; simp at hshift
    | some off =>
        rw [hq] at hshift
        simp at hshift
        simp only [LineCodec.decode, lineSplit, hq]
        have harith : c.next_index + off = p := by omega
        rw [harith]
  · intro hp
    rw [hp] at hshift
    cases hq : position (fun b => b == 10) (src.drop c.next_index) with
    | some off => rw [hq] at hshift; simp at hshift
    | none => simp only [LineCodec.decode, lineSplit, hq]

/-- Witness for `c6_decode_splits_at_first_newline`: a codec that has already
scanned two bytes splits `[65, 66, 67, 10, 68]` at the newline in position 3,
keeping the newline in the frame and leaving `[68]`. -/
theorem c6_witness :
    LineCodec.decode { encoding := Encoding.utf8, next_index := 2 } [65, 66, 67, 10, 68] =
      Except.ok ({ encoding := Encoding.utf8, next_index := 0 }, [68],
        some (Encoding.utf8.decodeReplace [65, 66, 67, 10])) :=
  (c6_decode_splits_at_first_newline { encoding := Encoding.utf8, next_index := 2 }
      [65, 66, 67, 10, 68] (by decide) (by decide)).1 3 (by decide)

theorem runSmart_eq_runNaive (ops : List CodecOp) :
    ∀ (ni : Nat) (buf : List Nat), ni ≤ buf.length →
      (∀ b ∈ buf.take ni, (b == 10) = false) →
      runSmart ni buf ops = runNaive buf ops := by
  induction ops with
  | nil => intro ni buf _ _; rfl
  | cons op rest ih =>
      intro ni buf hle hscan
      cases op with
      | feed bs =>
          simp only [runSmart, runNaive]
          apply ih
          · rw [List.length_append]
            omega
          · intro b hb
            apply hscan
            rwa [List.take_append_of_le_length hle] at hb
      | poll =>
          have hshift := position_shift (fun b => b == 10) ni buf hle hscan
          cases hq : position (fun b => b == 10) (buf.drop ni) with
          | some off =>
              rw [hq] at hshift
              simp at hshift
              simp only [runSmart, runNaive, lineSplit, naiveSplit, hq, hshift]
              have harith : ni + off = off + ni := Nat.add_comm ni off
              rw [harith]
              refine congrArg _ ?_
              exact ih 0 (buf.drop (off + ni + 1)) (Nat.zero_le _) (by simp)
          | none =>
              rw [hq] at hshift
              simp at hshift
              simp only [runSmart, runNaive, lineSplit, naiveSplit, hq, hshift]
              refine congrArg _ ?_
              refine ih buf.length buf (Nat.le_refl _) ?_
              intro b hb
              rw [List.take_of_length_le (Nat.le_refl _)] at hb
              exact (position_none_iff (fun b => b == 10) buf).mp hshift b hb

/-- C7: over every sequence of buffer extensions and decode polls, the codec
with its remembered `next_index` (set to the buffer length on a miss, reset to
0 on a successful split) yields exactly the frames of a naive decoder that
rescans the whole buffer from index 0 on every poll. -/
theorem c7_next_index_refines_naive_rescan (ops : List CodecOp) :
    runSmart 0 [] ops = runNaive [] ops :=
  runSmart_eq_runNaive ops 0 [] (Nat.zero_le _) (by simp)

/-- C8: over any run of the inbound iterator that completes, the surfaced
messages are exactly the parses of the received lines, one per line and in
order — the tracker handles PING, 353, 376/422, JOIN, PART and MODE
internally but never filters any message out of the stream
(`ServerIterator::next` returns the parsed message after `handle_message`,
server/mod.rs lines 166-170). -/
theorem c8_tracker_never_filters (cfg : Config) :
    ∀ (lines : List String) (cl cl' : Chanlists) (surfaced outs : List Message),
      runLines cfg cl lines = some (cl', surfaced, outs) →
      lines.map parseMessage = surfaced.map some
  | [], cl, cl', surfaced, outs, h => by
      simp [runLines] at h
      obtain ⟨_, rfl, _⟩ := h
      simp
  | line :: rest, cl, cl', surfaced, outs, h => by
      rw [runLines] at h
      cases hp : processLine cfg cl line with
      | none => rw [hp] at h; exact absurd h (by simp)
      | some r =>
          obtain ⟨cl₁, m, out⟩ := r
          rw [hp] at h
          dsimp only at h
          cases hr : runLines cfg cl₁ rest with
          | none => rw [hr] at h; exact absurd h (by simp)
          | some r' =>
              obtain ⟨cl₂, surfaced', outs'⟩ := r'
              rw [hr] at h
              simp at h
              obtain ⟨-, rfl, -⟩ := h
              have hparse : parseMessage line = some m := by
                rw [processLine] at hp
                cases hq : parseMessage line with
                | none => rw [hq] at hp; exact absurd hp (by simp)
                | some m' =>
                    rw [hq] at hp
                    dsimp only at hp
                    cases hh : handle_message cfg cl m' with
                    | none => rw [hh] at hp; exact absurd hp (by simp)
                    | some p =>
                        rw [hh] at hp
                        simp at hp
                        obtain ⟨-, rfl, -⟩ := hp
                        rfl
              simpa [hparse] using c8_tracker_never_filters cfg rest cl₁ cl₂ surfaced' outs' hr

/-- Witness for `c8_tracker_never_filters`: a run over a PING and a 353
surfaces both parsed messages. -/
theorem c8_witness :
    ["PING :irc.test.net\r\n", ":irc.test.net 353 test = #test :test ~owner &admin\r\n"].map
        parseMessage =
      [{ pfx := none, command := "PING", args := [], suffix := some "irc.test.net" : Message },
       { pfx := some "irc.test.net", command := "353", args := ["test", "=", "#test"],
         suffix := some "test ~owner &admin" : Message }].map some :=
  c8_tracker_never_filters test_config
    ["PING :irc.test.net\r\n", ":irc.test.net 353 test = #test :test ~owner &admin\r\n"]
    [] [("#test", [User.new "test", User.new "~owner", User.new "&admin"])]
    [{ pfx := none, command := "PING", args := [], suffix := some "irc.test.net" },
     { pfx := some "irc.test.net", command := "353", args := ["test", "=", "#test"],
       suffix := some "test ~owner &admin" }]
    [PONG "irc.test.net"] (by decide)

/-- C9: `list_users(chan)` is `none` exactly when the roster map has no entry
for `chan`; otherwise it returns the value of the entry — a snapshot copy: in
this pure embedding the returned list is a value, so neither mutating nor
dropping it can affect the roster map (`find_copy` clones under the mutex,
server/mod.rs line 78). -/
theorem c9_list_users_none_iff_unknown (cl : Chanlists) (chan : String) :
    (list_users cl chan = none ↔ ∀ p ∈ cl, p.1 ≠ chan) ∧
    (∀ v, list_users cl chan = some v → (chan, v) ∈ cl) := by
  induction cl with
  | nil => simp [list_users, Chanlists.find?]
  | cons p rest ih =>
      obtain ⟨k, v⟩ := p
      by_cases hk : k = chan
      · subst hk
        simp [list_users, Chanlists.find?]
      · constructor
        · rw [list_users, Chanlists.find?, if_neg hk]
          simp only [List.mem_cons]
          constructor
          · intro h q hq
            rcases hq with rfl | hq
            · exact hk
            · exact (ih.1.mp h) q hq
          · intro h
            exact ih.1.mpr (fun q hq => h q (Or.inr hq))
        · intro w hw
          rw [list_users, Chanlists.find?, if_neg hk] at hw
          exact List.mem_cons_of_mem _ (ih.2 w hw)

/-- Witness for `c9_list_users_none_iff_unknown`: on a one-entry map, the
known channel's entry is returned and an unknown channel yields `none`. -/
theorem c9_witness :
    ("#test", [User.new "test"]) ∈ ([("#test", [User.new "test"])] : Chanlists) ∧
    list_users ([("#test", [User.new "test"])] : Chanlists) "#nope" = none :=
  ⟨(c9_list_users_none_iff_unknown [("#test", [User.new "test"])] "#test").2
      [User.new "test"] (by decide),
   (c9_list_users_none_iff_unknown [("#test", [User.new "test"])] "#nope").1.mpr
      (by decide)⟩

/-- C10: a roster entry is created only by the 353 branch — a JOIN, PART or
MODE that names a channel with no roster entry leaves the roster map entirely
unchanged (the branches guard on `get_mut` and never insert, server/mod.rs
lines 122, 136), so `list_users` for that channel still returns `none`. -/
theorem c10_only_353_creates_roster (cfg : Config) (cl : Chanlists) (m : Message)
    (chan : String) :
    ((m.command = "JOIN" ∨ m.command = "PART") → chanOf m = some chan →
      Chanlists.find? cl chan = none → handle_message cfg cl m = some (cl, [])) ∧
    (m.command = "MODE" → m.args.get? 0 = some chan →
      Chanlists.find? cl chan = none → handle_message cfg cl m = some (cl, [])) := by
  constructor
  · intro hc hchan hnone
    obtain ⟨pfx, cmd, args, sfx⟩ := m
    rcases hc with hc | hc <;> dsimp only at hc hchan <;> subst hc <;>
      simp [handle_message, hchan, hnone]
  · intro hc hargs hnone
    obtain ⟨pfx, cmd, args, sfx⟩ := m
    dsimp only at hc hargs
    subst hc
    match args, hargs with
    | [a], hargs => simp [handle_message]
    | [a, b], hargs => simp [handle_message]
    | a :: b :: c :: d :: rest, hargs => simp [handle_message]
    | [a, b, c], hargs =>
        have ha : a = chan := by simpa using hargs
        subst ha
        simp [handle_message, hnone]

/-- Witness for `c10_only_353_creates_roster`: a JOIN and a MODE naming the
unknown channel `#ghost` leave the empty roster map unchanged. -/
theorem c10_witness :
    handle_message test_config []
      { pfx := some "x!u@h", command := "JOIN", args := ["#ghost"], suffix := none } =
      some ([], []) ∧
    handle_message test_config []
      { pfx := some "x!u@h", command := "MODE", args := ["#ghost", "+o", "x"], suffix := none } =
      some ([], []) :=
  ⟨(c10_only_353_creates_roster test_config []
      { pfx := some "x!u@h", command := "JOIN", args := ["#ghost"], suffix := none } "#ghost").1
      (Or.inl rfl) (by decide) (by decide),
   (c10_only_353_creates_roster test_config []
      { pfx := some "x!u@h", command := "MODE", args := ["#ghost", "+o", "x"], suffix := none }
      "#ghost").2 rfl (by decide) (by decide)⟩

end Irc
